import Mathlib

/-!
Verification development for the warbot streaming-delta aggregation engine and
tool-calling conversation loop (src/warbot/stream_handler.py, src/warbot/bot.py,
src/warbot/tools/registry.py), shallowly embedded in Lean.

Modelling conventions:
* Python optional attributes are `Option` values; by convention `none` stands
  for an attribute that is absent or Python-falsy (`None`, `""`, `[]`), since
  the source only ever tests these fields for truthiness before use.  Where a
  field is tested with `is None` rather than truthiness (tool-call `index`),
  the `Option` is matched exactly.
* Python dicts that are used in insertion order (the accumulator table
  `tool_calls`, built only through fresh-key insertion) are association lists.
* The display sink and debug logging (`on_debug`, console printing) only write
  to the log/console and never influence state or the emitted events; they are
  not modelled.  `on_finish` is modelled as always installed, as in
  `Warbot.send_message`.
* JSON decoding/encoding (`json.loads` / `json.dumps`) and the tool handlers
  are external collaborators; they are parameters of the embedding
  (`ToolEnv`).  `json.loads("{}")` is modelled directly as the empty argument
  mapping `ToolEnv.empty`.
* Raised Python exceptions are `Except.error`: `KeyError` from
  `ToolRegistry.execute` is `ToolError.keyError`, a raising handler is
  `ToolError.handlerError`.
-/

deriving instance DecidableEq for Except

/-- Python string truthiness of an optional string attribute. -/
def strTruthy : Option String → Bool
  | none => false
  | some s => s ≠ ""

/-- Python `a or b` for an optional string `a` and default `b`. -/
def pyOr (a : Option String) (b : String) : String :=
  match a with
  | none => b
  | some s => if s = "" then b else s

/-- The `function` sub-object of a partial tool-call delta
(`delta.tool_calls[k].function`): optional name and arguments fragment. -/
structure FunctionDelta where
  name : Option String := none
  arguments : Option String := none
deriving DecidableEq, Repr

/-- One partial tool-call increment carried by a streamed delta
(an element of `delta.tool_calls`). -/
structure ToolCallDelta where
  id : Option String := none
  index : Option Int := none
  type : Option String := none
  function : Option FunctionDelta := none
deriving DecidableEq, Repr

/-- The nested `function` payload of a finalized tool-call request dict
(`ToolCallBuilder.to_dict()["function"]`). -/
structure FunctionPayload where
  name : String
  arguments : String
deriving DecidableEq, Repr

/-- A finalized tool-call request (`ToolCallBuilder.to_dict()`). -/
structure ToolCallDict where
  id : String
  type : String
  function : FunctionPayload
deriving DecidableEq, Repr

/-- `ToolCallBuilder` (stream_handler.py lines 15-23): accumulates partial
tool call deltas into a full payload. -/
structure ToolCallBuilder where
  id : String
  index : Option Int := none
  type : String := "function"
  function_name : String := ""
  arguments : List String := []
deriving DecidableEq, Repr

/-- The arguments fragment contributed by one delta to the builder it merges
into: `fn.arguments` when the delta carries a function payload with truthy
arguments, nothing otherwise. -/
def callArgs (c : ToolCallDelta) : List String :=
  match c.function with
  | none => []
  | some fn => if strTruthy fn.arguments then [fn.arguments.getD ""] else []

/-- `ToolCallBuilder.update` (stream_handler.py lines 25-50), object-like delta
branch (lines 41-50): merge one partial delta into the builder.  The dict-like
branch (lines 27-39) applies the same field logic but also merges `id`/`index`
when no function payload is present; the object branch guards everything on a
truthy `delta.function`. -/
def ToolCallBuilder.update (b : ToolCallBuilder) (call : ToolCallDelta) : ToolCallBuilder :=
  match call.function with
  | none => b
  | some fn =>
    let b1 := if b.id = "" ∧ strTruthy call.id then { b with id := call.id.getD "" } else b
    let b2 := if b1.index = none ∧ call.index ≠ none then { b1 with index := call.index } else b1
    let b3 := if strTruthy fn.name then { b2 with function_name := fn.name.getD "" } else b2
    if strTruthy fn.arguments then { b3 with arguments := b3.arguments ++ [fn.arguments.getD ""] }
    else b3

/-- `ToolCallBuilder.to_dict` (stream_handler.py lines 52-60). -/
def ToolCallBuilder.to_dict (b : ToolCallBuilder) : ToolCallDict :=
  { id := if b.id = "" then "call" else b.id
    type := b.type
    function :=
      { name := if b.function_name = "" then "unknown_function" else b.function_name
        arguments := String.join b.arguments } }

/-- The thinking/reasoning side-channel fields probed by `_emit_thinking`
(stream_handler.py line 130): `thinking`, `reasoning`, `reasoning_content`,
`internal_monologue`, each possibly a string or a list (normalized later).
`none` = absent or falsy. -/
inductive ThinkVal where
  | str (s : String)
  | list (l : List String)
deriving DecidableEq, Repr

/-- One structural level of thinking fields (delta-, choice- or chunk-level). -/
structure ThinkingFields where
  thinking : Option ThinkVal := none
  reasoning : Option ThinkVal := none
  reasoning_content : Option ThinkVal := none
  internal_monologue : Option ThinkVal := none
deriving DecidableEq, Repr

/-- One element of a list-shaped `delta.content`: a plain string, a dict with
an optional `text` entry, an object with a `text` attribute, or anything else
(contributing nothing). -/
inductive ContentPart where
  | str (s : String)
  | dict (text : Option String)
  | obj (text : String)
  | other
deriving DecidableEq, Repr

/-- `delta.content`: a flat string (via `str(content)`) or a list of parts. -/
inductive ContentVal where
  | str (s : String)
  | list (parts : List ContentPart)
deriving DecidableEq, Repr

/-- The `delta` of one streamed choice.  `tool_calls = []` models an absent or
falsy `delta.tool_calls` (both cause `_collect_tool_calls` to do nothing). -/
structure Delta where
  think : ThinkingFields := {}
  content : Option ContentVal := none
  tool_calls : List ToolCallDelta := []
deriving DecidableEq, Repr

/-- One element of `chunk.choices`. -/
structure Choice where
  delta : Delta
  finish_reason : Option String := none
  think : ThinkingFields := {}
deriving DecidableEq, Repr

/-- One streamed protocol fragment. -/
structure Chunk where
  choices : List Choice
  think : ThinkingFields := {}
deriving DecidableEq, Repr

/-- A callback invocation made by the stream handler. -/
inductive Event where
  | thinking (s : String)
  | content (s : String)
  | tool_call (d : ToolCallDict)
  | finish (r : Option String)
deriving DecidableEq, Repr

/-- Probe the four historically-used thinking field names at one structural
level, in the fixed priority order of stream_handler.py line 130, returning
the first truthy value. -/
def probeFields (tf : ThinkingFields) : Option ThinkVal :=
  match tf.thinking with
  | some v => some v
  | none =>
    match tf.reasoning with
    | some v => some v
    | none =>
      match tf.reasoning_content with
      | some v => some v
      | none => tf.internal_monologue

/-- Normalization of a found thinking value (stream_handler.py lines 162-166):
a list is joined element-wise (elements already string-converted), anything
else is `str(...)`. -/
def normalizeThink : ThinkVal → String
  | .str s => s
  | .list l => String.join l

/-- The three-level probe of `StreamHandler._emit_thinking`
(stream_handler.py lines 127-157): delta-level fields first, then choice-level,
then chunk-level, first truthy hit wins.  The dict-shaped re-probe of the
delta (lines 137-141) repeats the same fields and is covered by the first
probe. -/
def probeAll (d : Delta) (c : Choice) (ch : Chunk) : Option ThinkVal :=
  match probeFields d.think with
  | some v => some v
  | none =>
    match probeFields c.think with
    | some v => some v
    | none => probeFields ch.think

/-- `StreamHandler._emit_thinking` (stream_handler.py lines 122-168): emit one
thinking event for the first truthy probe hit whose normalization is
non-empty. -/
def emit_thinking (d : Delta) (c : Choice) (ch : Chunk) : List Event :=
  match probeAll d c ch with
  | none => []
  | some v =>
    let text := normalizeThink v
    if text = "" then [] else [Event.thinking text]

/-- Text contributed by one content part (stream_handler.py lines 178-184). -/
def partText : ContentPart → List String
  | .str s => [s]
  | .dict t => [t.getD ""]
  | .obj t => [t]
  | .other => []

/-- `StreamHandler._emit_content` (stream_handler.py lines 170-189). -/
def emit_content (d : Delta) : List Event :=
  match d.content with
  | none => []
  | some (.str s) => if s = "" then [] else [Event.content s]
  | some (.list parts) =>
    let text := String.join (parts.map partText).flatten
    if text = "" then [] else [Event.content text]

/-- The in-flight accumulator table `tool_calls : dict[str, ToolCallBuilder]`,
as an insertion-ordered association list. -/
abbrev BuilderState := List (String × ToolCallBuilder)

/-- Dict lookup `tool_calls[key]` / `key in tool_calls` (first entry wins;
the table never holds duplicate keys when built from `[]`). -/
def getBuilder : BuilderState → String → Option ToolCallBuilder
  | [], _ => none
  | p :: ps, k => if p.1 = k then some p.2 else getBuilder ps k

/-- In-place mutation of the builder stored under a key. -/
def listUpdate : BuilderState → String → (ToolCallBuilder → ToolCallBuilder) → BuilderState
  | [], _, _ => []
  | p :: ps, k, f => (if p.1 = k then (p.1, f p.2) else p) :: listUpdate ps k f

/-- Correlation-key resolution of `_collect_tool_calls` (stream_handler.py
lines 212-220), transcribed with the same control flow: start from the id,
fall back to an index match against existing builders, then synthesize a key
from the index or from the ordinal position in the current batch. -/
def resolveKeyCode (tool_calls : BuilderState) (call_id : Option String)
    (call_index : Option Int) (idx : Nat) : String :=
  let key0 : Option String := call_id
  let key1 : Option String :=
    match key0, call_index with
    | none, some i =>
      match tool_calls.find? (fun p => p.2.index = some i) with
      | some p => some p.1
      | none => none
    | _, _ => key0
  match key1 with
  | some k => k
  | none =>
    match call_index with
    | some i => "idx_" ++ toString i
    | none => "call_" ++ toString idx

/-- Builder creation on first fragment for a fresh key (stream_handler.py
lines 222-227). -/
def newBuilder (call : ToolCallDelta) (key : String) : ToolCallBuilder :=
  { id := pyOr call.id key
    index := call.index
    type := pyOr call.type "function" }

/-- The body of the `for idx, call in enumerate(calls)` loop of
`_collect_tool_calls` (stream_handler.py lines 200-230) for one call. -/
def processCall (st : BuilderState) (idx : Nat) (call : ToolCallDelta) : BuilderState :=
  let key := resolveKeyCode st call.id call.index idx
  let st1 := if getBuilder st key = none then st ++ [(key, newBuilder call key)] else st
  listUpdate st1 key (fun b => b.update call)

/-- Fold of `processCall` over an enumerated batch of calls. -/
def processList (st : BuilderState) (l : List (Nat × ToolCallDelta)) : BuilderState :=
  l.foldl (fun st p => processCall st p.1 p.2) st

/-- `StreamHandler._collect_tool_calls` (stream_handler.py lines 191-230). -/
def collect_tool_calls (d : Delta) (st : BuilderState) : BuilderState :=
  processList st d.tool_calls.enum

/-- `StreamHandler._emit_tool_calls` (stream_handler.py lines 232-234): emit
every in-flight builder, finalized, in table (= creation) order. -/
def emit_tool_calls (st : BuilderState) : List Event :=
  st.map (fun p => Event.tool_call p.2.to_dict)

/-- The per-chunk body of `StreamHandler.handle_stream` (stream_handler.py
lines 84-120): skip choice-less chunks, inspect only the first choice, emit
thinking/content, accumulate tool-call deltas, and on a truthy finish reason
emit the batch (for `tool_calls`) and the completion signal, then clear. -/
def handleChunk (st : BuilderState) (chunk : Chunk) : BuilderState × List Event :=
  match chunk.choices with
  | [] => (st, [])
  | choice :: _ =>
    let d := choice.delta
    let evs := emit_thinking d choice chunk ++ emit_content d
    let st2 := collect_tool_calls d st
    if strTruthy choice.finish_reason then
      let tcEvs := if choice.finish_reason = some "tool_calls" then emit_tool_calls st2 else []
      ([], evs ++ tcEvs ++ [Event.finish choice.finish_reason])
    else
      (st2, evs)

/-- The chunk loop of `handle_stream`, threading the accumulator table. -/
def runChunks (st : BuilderState) : List Chunk → BuilderState × List Event
  | [] => (st, [])
  | c :: cs =>
    let r1 := handleChunk st c
    let r2 := runChunks r1.1 cs
    (r2.1, r1.2 ++ r2.2)

/-- `StreamHandler.handle_stream` (stream_handler.py lines 80-120): the event
sequence produced for a full stream, starting from an empty accumulator
table. -/
def handle_stream (chunks : List Chunk) : List Event :=
  (runChunks [] chunks).2

/-- One entry of the conversation history `Warbot.history`: a message dict
with the keys actually used by bot.py (absent keys are `none`). -/
structure Message where
  role : String
  content : Option String := none
  tool_calls : Option (List ToolCallDict) := none
  tool_call_id : Option String := none
  name : Option String := none
deriving DecidableEq, Repr

/-- A raised Python exception escaping tool dispatch: the `KeyError` raised by
`ToolRegistry.execute` for an unregistered name (registry.py lines 28-29), or
an exception raised by the capability handler itself. -/
inductive ToolError where
  | keyError (name : String)
  | handlerError (msg : String)
deriving DecidableEq, Repr

/-- `ToolRegistry` (registry.py lines 9-30): a name-keyed table of handlers.
A handler takes the decoded argument mapping (abstract type alpha) and returns
a result (abstract type beta) or raises (`Except.error`). -/
structure ToolRegistry (α β : Type) where
  tools : List (String × (α → Except String β))

/-- `ToolRegistry.execute` (registry.py lines 26-30): `KeyError` when the name
is not registered, otherwise invoke the handler; handler failures propagate
unchanged. -/
def ToolRegistry.execute (r : ToolRegistry α β) (name : String) (args : α) :
    Except ToolError β :=
  match r.tools.find? (fun p => p.1 = name) with
  | none => Except.error (ToolError.keyError name)
  | some p =>
    match p.2 args with
    | Except.ok v => Except.ok v
    | Except.error e => Except.error (ToolError.handlerError e)

/-- The external collaborators of the conversation loop: JSON argument
decoding (`json.loads`, `none` = `JSONDecodeError`), the empty argument
mapping, the tool registry, and result serialization (`json.dumps`). -/
structure ToolEnv (α β : Type) where
  parse : String → Option α
  empty : α
  registry : ToolRegistry α β
  dump : β → String

/-- `json.loads(fn["arguments"] or "{}")` with the `except JSONDecodeError`
fallback to `{}` (bot.py lines 172-175); `json.loads("{}")` is the empty
mapping. -/
def decodeArgs (env : ToolEnv α β) (s : String) : α :=
  if s = "" then env.empty
  else
    match env.parse s with
    | some a => a
    | none => env.empty

/-- The `tool`-role message appended for one executed call
(bot.py lines 183-190). -/
def toolMessage (env : ToolEnv α β) (call : ToolCallDict) (result : β) : Message :=
  { role := "tool"
    tool_call_id := some call.id
    name := some call.function.name
    content := some (env.dump result) }

/-- `Warbot._execute_tool_calls` (bot.py lines 167-191): execute each call in
order, building one `tool` message per call.  The dispatch
`registry.execute(name, **args)` is not guarded: a raised exception aborts the
loop and propagates (no messages are returned). -/
def execute_tool_calls (env : ToolEnv α β) : List ToolCallDict → Except ToolError (List Message)
  | [] => Except.ok []
  | call :: rest =>
    match env.registry.execute call.function.name (decodeArgs env call.function.arguments) with
    | Except.error e => Except.error e
    | Except.ok result =>
      match execute_tool_calls env rest with
      | Except.error e => Except.error e
      | Except.ok msgs => Except.ok (toolMessage env call result :: msgs)

/-- `Warbot._format_assistant_tool_message` (bot.py lines 152-165). -/
def format_assistant_tool_message (calls : List ToolCallDict) : Message :=
  { role := "assistant"
    tool_calls := some (calls.map (fun c =>
      { id := c.id
        type := c.type
        function := { name := c.function.name, arguments := c.function.arguments } })) }

/-- The tool-call dicts delivered to `_on_tool_call`, in callback order. -/
def toolCallEvents (evs : List Event) : List ToolCallDict :=
  evs.filterMap (fun e =>
    match e with
    | Event.tool_call d => some d
    | _ => none)

/-- The text increments delivered to `_on_content`, in callback order
(`assistant_chunks`). -/
def contentEvents (evs : List Event) : List String :=
  evs.filterMap (fun e =>
    match e with
    | Event.content s => some s
    | _ => none)

/-- The final value of the `finish_reason` variable of `send_message`: set by
each `_on_finish` callback, starting from `None`. -/
def finalFinish (evs : List Event) : Option String :=
  evs.foldl (fun acc e =>
    match e with
    | Event.finish r => r
    | _ => acc) none

/-- The `while True` round loop of `Warbot.send_message` (bot.py lines
92-150), driven by the per-round streams the upstream model returns; an empty
stream list means the (in principle unbounded) loop is cut off, returning
`none`.  A round whose callbacks produced tool calls, or whose terminal reason
is `tool_calls`, appends the assistant tool message plus the tool results and
loops; otherwise the buffered content is appended and returned. -/
def roundsLoop (env : ToolEnv α β) :
    List (List Chunk) → List Message → Except ToolError (Option (String × List Message))
  | [], _ => Except.ok none
  | stream :: rest, history =>
    let events := handle_stream stream
    let tool_calls := toolCallEvents events
    let finish_reason := finalFinish events
    if tool_calls ≠ [] ∨ finish_reason = some "tool_calls" then
      let history2 := history ++ [format_assistant_tool_message tool_calls]
      match execute_tool_calls env tool_calls with
      | Except.error e => Except.error e
      | Except.ok msgs => roundsLoop env rest (history2 ++ msgs)
    else
      let content := String.join (contentEvents events)
      Except.ok (some (content, history ++ [{ role := "assistant", content := some content }]))

/-- `Warbot.send_message` (bot.py lines 88-150): append the user message and
run the round loop. -/
def send_message (env : ToolEnv α β) (streams : List (List Chunk))
    (history : List Message) (user_input : String) :
    Except ToolError (Option (String × List Message)) :=
  roundsLoop env streams (history ++ [{ role := "user", content := some user_input }])

/-- A chunk carrying only a batch of partial tool-call deltas. -/
def toolChunk (b : List ToolCallDelta) : Chunk :=
  { choices := [{ delta := { tool_calls := b } }] }

/-- A chunk carrying only a terminal reason. -/
def finishChunk (r : String) : Chunk :=
  { choices := [{ delta := {}, finish_reason := some r }] }

/-- A chunk carrying only an answer-text increment. -/
def contentChunk (s : String) : Chunk :=
  { choices := [{ delta := { content := some (.str s) } }] }

/-- A stream made of tool-call batches followed by a `tool_calls` terminal
fragment. -/
def toolStream (batches : List (List ToolCallDelta)) : List Chunk :=
  batches.map toolChunk ++ [finishChunk "tool_calls"]

/-- The correlation-key resolution order exactly as the spec words it:
(1) the identifier if present; (2) else the key of an existing in-flight
accumulator whose stored index equals the fragment index; (3) else a fresh
key synthesized from the index; (4) else a fresh key synthesized from the
ordinal position within the current batch. -/
def resolveKeySpec (st : BuilderState) (call_id : Option String)
    (call_index : Option Int) (ord : Nat) : String :=
  match call_id with
  | some s => s
  | none =>
    match call_index with
    | some i =>
      match st.find? (fun p => p.2.index = some i) with
      | some p => p.1
      | none => "idx_" ++ toString i
    | none => "call_" ++ toString ord

theorem update_arguments (b : ToolCallBuilder) (c : ToolCallDelta) :
    (b.update c).arguments = b.arguments ++ callArgs c := by
  unfold ToolCallBuilder.update callArgs
  cases c.function with
  | none => simp
  | some fn => dsimp only; split <;> split <;> split <;> split <;> simp_all

theorem update_function_name (b : ToolCallBuilder) (c : ToolCallDelta) :
    (b.update c).function_name
      = match c.function with
        | none => b.function_name
        | some fn => if strTruthy fn.name then fn.name.getD "" else b.function_name := by
  unfold ToolCallBuilder.update
  cases c.function with
  | none => simp
  | some fn => dsimp only; split <;> split <;> split <;> split <;> simp_all

theorem update_id_of_ne (b : ToolCallBuilder) (c : ToolCallDelta) (h : b.id ≠ "") :
    (b.update c).id = b.id := by
  unfold ToolCallBuilder.update
  cases c.function with
  | none => simp
  | some fn => dsimp only; split <;> split <;> split <;> split <;> simp_all

theorem update_index_of_some (b : ToolCallBuilder) (c : ToolCallDelta) (i : Int)
    (h : b.index = some i) : (b.update c).index = some i := by
  unfold ToolCallBuilder.update
  cases c.function with
  | none => simpa using h
  | some fn => dsimp only; split <;> split <;> split <;> split <;> simp_all

/-- C5: for every incoming partial tool-call fragment, the correlation key is
resolved in exactly the order the spec states: identifier if present, else an
existing accumulator with matching stored index, else a fresh key from the
index, else a fresh key from the ordinal position in the current batch. -/
theorem c5_correlation_key_resolution_order (st : BuilderState) (call_id : Option String)
    (call_index : Option Int) (idx : Nat) :
    resolveKeyCode st call_id call_index idx = resolveKeySpec st call_id call_index idx := by
  unfold resolveKeyCode resolveKeySpec
  cases call_id with
  | some s => cases call_index <;> rfl
  | none =>
    cases call_index with
    | none => rfl
    | some i => cases h : st.find? (fun p => p.2.index = some i) <;> simp [h]

/-- C9: every finalized Tool-Call Request carries a non-empty capability name
(falling back to the sentinel `unknown_function` when the accumulator never
received a name), and finalization emits one request per in-flight
accumulator, so a nameless accumulator is surfaced rather than dropped. -/
theorem c9_finalized_name_nonempty (b : ToolCallBuilder) (st : BuilderState) :
    b.to_dict.function.name
        = (if b.function_name = "" then "unknown_function" else b.function_name)
      ∧ b.to_dict.function.name ≠ ""
      ∧ (emit_tool_calls st).length = st.length := by
  refine ⟨rfl, ?_, by simp [emit_tool_calls]⟩
  by_cases h : b.function_name = "" <;> simp [ToolCallBuilder.to_dict, h]

/-- C10: the stream handler inspects only the first choice of a chunk — a
chunk with an empty choices list leaves the accumulator table untouched and
emits nothing, and the choices after the first (whatever text, tool-call data
or terminal reason they carry) have no effect on the outcome of the chunk. -/
theorem c10_only_first_choice_inspected :
    (∀ (st : BuilderState) (tf : ThinkingFields),
        handleChunk st { choices := [], think := tf } = (st, []))
      ∧ (∀ (st : BuilderState) (c : Choice) (rest1 rest2 : List Choice) (tf : ThinkingFields),
          handleChunk st { choices := c :: rest1, think := tf }
            = handleChunk st { choices := c :: rest2, think := tf }) :=
  ⟨fun _ _ => rfl, fun _ _ _ _ _ => rfl⟩

/-- Two fragments sharing identifier "1": the first names the capability
"alpha", the second names it "beta". -/
def c4FragA : ToolCallDelta := { id := some "1", function := some { name := some "alpha" } }

/-- See `c4FragA`. -/
def c4FragB : ToolCallDelta := { id := some "1", function := some { name := some "beta" } }

/-- C4 is false on the code: a later fragment carrying a different non-empty
name overwrites the name set by the first fragment
(`ToolCallBuilder.update` line 48 assigns unconditionally on a truthy name).
Here the finalized request carries "beta", not the first-arrived "alpha". -/
theorem c4_counterexample :
    toolCallEvents (handle_stream (toolStream [[c4FragA], [c4FragB]]))
        = [{ id := "1", type := "function", function := { name := "beta", arguments := "" } }]
      ∧ toolCallEvents (handle_stream (toolStream [[c4FragA], [c4FragB]]))
        ≠ [{ id := "1", type := "function", function := { name := "alpha", arguments := "" } }] := by
  constructor <;> decide

/-- C4 amended: the capability name reflects the most recent fragment carrying
a non-empty name (later non-empty names overwrite earlier ones; empty or
absent names leave it unchanged), and argument fragments are only ever
appended, never replaced, in arrival order. -/
theorem c4_amended_last_nonempty_name_wins (b : ToolCallBuilder) (c : ToolCallDelta) :
    (b.update c).function_name
        = (match c.function with
           | none => b.function_name
           | some fn => if strTruthy fn.name then fn.name.getD "" else b.function_name)
      ∧ (b.update c).arguments = b.arguments ++ callArgs c :=
  ⟨update_function_name b c, update_arguments b c⟩

/-- A conversation-loop environment over trivial argument/result types, with
the given registry contents. -/
def testEnv (tools : List (String × (Unit → Except String Unit))) : ToolEnv Unit Unit :=
  { parse := fun _ => some ()
    empty := ()
    registry := { tools := tools }
    dump := fun _ => "null" }

/-- A finalized round requesting the unregistered capability "foo". -/
def fooFrag : ToolCallDelta := { id := some "1", function := some { name := some "foo" } }

/-- C1 is false on the code: `Warbot._execute_tool_calls` (bot.py line 178)
calls `registry.execute` without any exception guard, so dispatching to an
unregistered capability raises `KeyError` out of `send_message`; no tool
message is appended and the loop does not proceed. -/
theorem c1_counterexample :
    send_message (testEnv []) [[toolChunk [fooFrag], finishChunk "tool_calls"]] [] "hi"
      = Except.error (ToolError.keyError "foo") := by
  rfl

/-- C1 amended: when dispatching the finalized Tool-Call Requests of a round
fails (unknown capability name or a raising handler), the failure propagates
out of `send_message` as the raised exception; no tool message is appended
and no further round is started. -/
theorem c1_amended_dispatch_failure_propagates {α β : Type} (env : ToolEnv α β)
    (stream : List Chunk) (rest : List (List Chunk)) (history : List Message)
    (u : String) (e : ToolError)
    (h : execute_tool_calls env (toolCallEvents (handle_stream stream)) = Except.error e) :
    send_message env (stream :: rest) history u = Except.error e := by
  have hne : toolCallEvents (handle_stream stream) ≠ [] := by
    intro h0
    rw [h0] at h
    simp [execute_tool_calls] at h
  unfold send_message roundsLoop
  rw [if_pos (Or.inl hne), h]

/-- A registered capability whose handler raises. -/
def boomEnv : ToolEnv Unit Unit := testEnv [("boom", fun _ => Except.error "handler blew up")]

/-- A finalized round requesting the raising capability "boom". -/
def boomFrag : ToolCallDelta := { id := some "1", function := some { name := some "boom" } }

theorem c1_amended_witness :
    execute_tool_calls boomEnv
        (toolCallEvents (handle_stream [toolChunk [boomFrag], finishChunk "tool_calls"]))
        = Except.error (ToolError.handlerError "handler blew up")
      ∧ send_message boomEnv [[toolChunk [boomFrag], finishChunk "tool_calls"]] [] "q"
        = Except.error (ToolError.handlerError "handler blew up") :=
  ⟨rfl, c1_amended_dispatch_failure_propagates boomEnv
    [toolChunk [boomFrag], finishChunk "tool_calls"] [] [] "q"
    (ToolError.handlerError "handler blew up") rfl⟩

/-- C2 is false on the code: `Warbot.send_message` (bot.py line 135) loops on
`tool_calls or finish_reason == "tool_calls"`, so a round whose terminal
reason is `tool_calls` but which produced zero Tool-Call Requests appends an
assistant message with an empty tool-call list and starts another round,
instead of falling through to finalization with the buffered text.  Here
round one buffers "abc" and ends with reason `tool_calls` and no requests;
the claim predicts the exchange ends returning "abc", but the code runs a
second round and returns its answer "xyz". -/
theorem c2_counterexample :
    send_message (testEnv [])
        [[contentChunk "abc", finishChunk "tool_calls"],
         [contentChunk "xyz", finishChunk "stop"]] [] "q"
      = Except.ok (some ("xyz",
          [{ role := "user", content := some "q" },
           { role := "assistant", tool_calls := some [] },
           { role := "assistant", content := some "xyz" }]))
      ∧ send_message (testEnv [])
          [[contentChunk "abc", finishChunk "tool_calls"],
           [contentChunk "xyz", finishChunk "stop"]] [] "q"
        ≠ Except.ok (some ("abc",
            [{ role := "user", content := some "q" },
             { role := "assistant", content := some "abc" }])) := by
  constructor <;> decide

/-- C2 amended: a round whose terminal reason is `tool_calls` but in which
zero Tool-Call Requests were emitted does not finalize — the loop appends an
assistant message carrying an empty tool-call list (and no tool messages,
since there are no requests to dispatch) and starts another round; the
buffered answer text of the degenerate round is discarded. -/
theorem c2_amended_degenerate_round_starts_new_round {α β : Type} (env : ToolEnv α β)
    (stream : List Chunk) (rest : List (List Chunk)) (history : List Message) (u : String)
    (h1 : toolCallEvents (handle_stream stream) = [])
    (h2 : finalFinish (handle_stream stream) = some "tool_calls") :
    send_message env (stream :: rest) history u
      = roundsLoop env rest
          ((history ++ [{ role := "user", content := some u }])
            ++ [format_assistant_tool_message []]) := by
  unfold send_message
  rw [roundsLoop]
  dsimp only
  rw [h1, h2]
  simp [execute_tool_calls]

theorem c2_amended_witness :
    toolCallEvents (handle_stream [contentChunk "abc", finishChunk "tool_calls"]) = []
      ∧ finalFinish (handle_stream [contentChunk "abc", finishChunk "tool_calls"])
          = some "tool_calls"
      ∧ send_message (testEnv []) [[contentChunk "abc", finishChunk "tool_calls"]] [] "q"
          = roundsLoop (testEnv []) []
              (([] ++ [{ role := "user", content := some "q" }])
                ++ [format_assistant_tool_message []]) :=
  ⟨rfl, rfl,
    c2_amended_degenerate_round_starts_new_round (testEnv [])
      [contentChunk "abc", finishChunk "tool_calls"] [] [] "q" rfl rfl⟩

theorem emit_thinking_shape (d : Delta) (c : Choice) (ch : Chunk) :
    emit_thinking d c ch = [] ∨ ∃ s, emit_thinking d c ch = [Event.thinking s] := by
  unfold emit_thinking
  cases probeAll d c ch with
  | none => exact Or.inl rfl
  | some v =>
    dsimp only
    split
    · exact Or.inl rfl
    · exact Or.inr ⟨_, rfl⟩

theorem emit_content_shape (d : Delta) :
    emit_content d = [] ∨ ∃ s, emit_content d = [Event.content s] := by
  cases h : d.content with
  | none => exact Or.inl (by simp [emit_content, h])
  | some v =>
    cases v with
    | str s =>
      by_cases hs : s = ""
      · exact Or.inl (by simp [emit_content, h, hs])
      · exact Or.inr ⟨s, by simp [emit_content, h, hs]⟩
    | list parts =>
      by_cases hs : String.join (List.map partText parts).flatten = ""
      · exact Or.inl (by simp [emit_content, h, hs])
      · exact Or.inr ⟨String.join (List.map partText parts).flatten,
          by simp [emit_content, h, hs]⟩

theorem handleChunk_events_shape (st : BuilderState) (chunk : Chunk)
    (h : ∀ ch ∈ chunk.choices, ch.finish_reason ≠ some "tool_calls") :
    ∀ e ∈ (handleChunk st chunk).2,
      (∀ d, e ≠ Event.tool_call d) ∧ e ≠ Event.finish (some "tool_calls") := by
  intro e he
  have hbase : ∀ (d0 : Delta) (c0 : Choice),
      e ∈ emit_thinking d0 c0 chunk ++ emit_content d0 →
      (∀ d, e ≠ Event.tool_call d) ∧ e ≠ Event.finish (some "tool_calls") := by
    intro d0 c0 hx
    rcases List.mem_append.mp hx with hx1 | hx2
    · rcases emit_thinking_shape d0 c0 chunk with hsh | ⟨s, hsh⟩ <;> rw [hsh] at hx1
      · simp at hx1
      · rw [List.mem_singleton] at hx1
        subst hx1
        exact ⟨fun d => by simp, by simp⟩
    · rcases emit_content_shape d0 with hsh | ⟨s, hsh⟩ <;> rw [hsh] at hx2
      · simp at hx2
      · rw [List.mem_singleton] at hx2
        subst hx2
        exact ⟨fun d => by simp, by simp⟩
  rcases hc : chunk.choices with _ | ⟨ch, rest⟩
  · unfold handleChunk at he
    rw [hc] at he
    simp at he
  · have hch : ch.finish_reason ≠ some "tool_calls" :=
      h ch (by rw [hc]; exact List.mem_cons_self ch rest)
    unfold handleChunk at he
    rw [hc] at he
    dsimp only at he
    by_cases hf : strTruthy ch.finish_reason = true
    · rw [if_pos hf, if_neg hch] at he
      dsimp only at he
      rw [List.append_nil] at he
      rcases List.mem_append.mp he with he1 | he2
      · exact hbase ch.delta ch he1
      · rw [List.mem_singleton] at he2
        subst he2
        exact ⟨fun d => by simp, by simpa using hch⟩
    · rw [if_neg hf] at he
      dsimp only at he
      exact hbase ch.delta ch he

theorem runChunks_events_shape (chunks : List Chunk) (st : BuilderState)
    (h : ∀ chunk ∈ chunks, ∀ ch ∈ chunk.choices, ch.finish_reason ≠ some "tool_calls") :
    ∀ e ∈ (runChunks st chunks).2,
      (∀ d, e ≠ Event.tool_call d) ∧ e ≠ Event.finish (some "tool_calls") := by
  induction chunks generalizing st with
  | nil => intro e he; simp [runChunks] at he
  | cons c cs ih =>
    intro e he
    rw [runChunks] at he
    dsimp only at he
    rcases List.mem_append.mp he with h1 | h2
    · exact handleChunk_events_shape st c (h c (List.mem_cons_self c cs)) e h1
    · exact ih (handleChunk st c).1 (fun chunk hm => h chunk (List.mem_cons_of_mem c hm)) e h2

theorem no_tool_call_events_toolCallEvents (evs : List Event)
    (h : ∀ e ∈ evs, ∀ d, e ≠ Event.tool_call d) : toolCallEvents evs = [] := by
  rw [toolCallEvents, List.filterMap_eq_nil_iff]
  intro e he
  cases e with
  | tool_call d => exact absurd rfl (h (Event.tool_call d) he d)
  | thinking s => rfl
  | content s => rfl
  | finish r => rfl

theorem finalFinish_ne_of_events (evs : List Event) (acc : Option String)
    (h : ∀ e ∈ evs, e ≠ Event.finish (some "tool_calls")) (hacc : acc ≠ some "tool_calls") :
    evs.foldl (fun acc e => match e with | Event.finish r => r | _ => acc) acc
      ≠ some "tool_calls" := by
  induction evs generalizing acc with
  | nil => simpa using hacc
  | cons e es ih =>
    rw [List.foldl_cons]
    refine ih _ (fun x hx => h x (List.mem_cons_of_mem e hx)) ?_
    cases e with
    | finish r =>
      dsimp only
      intro hr
      exact h (Event.finish r) (List.mem_cons_self _ es) (by rw [hr])
    | thinking s => exact hacc
    | content s => exact hacc
    | tool_call d => exact hacc

/-- C8: a round whose terminal reason is not `tool_calls` never triggers tool
dispatch — even when stray tool-call fragments populated in-flight
accumulators, no Tool-Call Request is emitted, and the loop finalizes the
round with the buffered content: the registry is never invoked and no
assistant tool message or tool message is appended. -/
theorem c8_no_dispatch_without_tool_calls_reason {α β : Type} (env : ToolEnv α β)
    (stream : List Chunk) (rest : List (List Chunk)) (history : List Message) (u : String)
    (h : ∀ chunk ∈ stream, ∀ ch ∈ chunk.choices, ch.finish_reason ≠ some "tool_calls") :
    toolCallEvents (handle_stream stream) = []
      ∧ send_message env (stream :: rest) history u
        = Except.ok (some (String.join (contentEvents (handle_stream stream)),
            (history ++ [{ role := "user", content := some u }])
              ++ [{ role := "assistant",
                    content := some (String.join (contentEvents (handle_stream stream))) }])) := by
  have hshape := runChunks_events_shape stream [] h
  have htc : toolCallEvents (handle_stream stream) = [] :=
    no_tool_call_events_toolCallEvents _ (fun e he d => (hshape e he).1 d)
  have hff : finalFinish (handle_stream stream) ≠ some "tool_calls" :=
    finalFinish_ne_of_events _ none (fun e he => (hshape e he).2) (by simp)
  refine ⟨htc, ?_⟩
  have hcond : ¬(toolCallEvents (handle_stream stream) ≠ []
      ∨ finalFinish (handle_stream stream) = some "tool_calls") := by
    push_neg
    exact ⟨htc, hff⟩
  unfold send_message
  rw [roundsLoop]
  dsimp only
  rw [if_neg hcond]

/-- A stray tool-call fragment followed by a `stop` terminal reason. -/
def strayStream : List Chunk :=
  [toolChunk [fooFrag], contentChunk "answer", finishChunk "stop"]

theorem c8_witness :
    (∀ chunk ∈ strayStream, ∀ ch ∈ chunk.choices, ch.finish_reason ≠ some "tool_calls")
      ∧ toolCallEvents (handle_stream strayStream) = []
      ∧ send_message (testEnv []) [strayStream] [] "q"
        = Except.ok (some (String.join (contentEvents (handle_stream strayStream)),
            (([] : List Message) ++ [{ role := "user", content := some "q" }])
              ++ [{ role := "assistant",
                    content := some (String.join (contentEvents (handle_stream strayStream))) }])) := by
  have h : ∀ chunk ∈ strayStream, ∀ ch ∈ chunk.choices, ch.finish_reason ≠ some "tool_calls" := by
    decide
  have hc := c8_no_dispatch_without_tool_calls_reason (testEnv []) strayStream [] [] "q" h
  exact ⟨h, hc.1, hc.2⟩

/-- C7: when a fragment signals terminal reason `tool_calls`, every in-flight
accumulator is finalized and emitted as one batch, in accumulator-table
(creation) order, before the completion signal; and `_execute_tool_calls`
dispatches the requests and builds their tool messages in exactly that order
(one message per request, never interleaved or reordered). -/
theorem c7_batch_order_and_sequential_dispatch :
    (∀ (st : BuilderState) (d : Delta) (tf1 tf2 : ThinkingFields) (rest : List Choice),
        handleChunk st
            { choices := { delta := d, finish_reason := some "tool_calls", think := tf1 } :: rest,
              think := tf2 }
          = ([], emit_thinking d { delta := d, finish_reason := some "tool_calls", think := tf1 }
                  { choices :=
                      { delta := d, finish_reason := some "tool_calls", think := tf1 } :: rest,
                    think := tf2 }
                ++ emit_content d
                ++ emit_tool_calls (collect_tool_calls d st)
                ++ [Event.finish (some "tool_calls")])
          ∧ emit_tool_calls (collect_tool_calls d st)
              = (collect_tool_calls d st).map (fun p => Event.tool_call p.2.to_dict))
      ∧ (∀ (α β : Type) (env : ToolEnv α β) (calls : List ToolCallDict),
          (∀ c ∈ calls, (env.registry.execute c.function.name
              (decodeArgs env c.function.arguments)).isOk = true) →
          ∃ msgs, execute_tool_calls env calls = Except.ok msgs
            ∧ msgs.map (fun m => m.tool_call_id) = calls.map (fun c => some c.id)
            ∧ msgs.map (fun m => m.name) = calls.map (fun c => some c.function.name)) := by
  constructor
  · intro st d tf1 tf2 rest
    exact ⟨rfl, rfl⟩
  · intro α β env calls
    induction calls with
    | nil => intro h; exact ⟨[], rfl, rfl, rfl⟩
    | cons c rest ih =>
      intro h
      obtain ⟨msgs, hm, hids, hnames⟩ := ih (fun x hx => h x (List.mem_cons_of_mem c hx))
      have hc := h c (List.mem_cons_self c rest)
      rcases hex : env.registry.execute c.function.name (decodeArgs env c.function.arguments)
        with e | r
      · rw [hex] at hc
        simp [Except.isOk, Except.toBool] at hc
      · refine ⟨toolMessage env c r :: msgs, ?_, ?_, ?_⟩
        · rw [execute_tool_calls, hex, hm]
        · simp [toolMessage, hids]
        · simp [toolMessage, hnames]

/-- An environment with two registered capabilities that both succeed. -/
def twoToolEnv : ToolEnv Unit Unit :=
  testEnv [("alpha_tool", fun _ => Except.ok ()), ("beta_tool", fun _ => Except.ok ())]

/-- First of two finalized requests of one round. -/
def callAlpha : ToolCallDict :=
  { id := "1", type := "function", function := { name := "alpha_tool", arguments := "" } }

/-- Second of two finalized requests of one round. -/
def callBeta : ToolCallDict :=
  { id := "2", type := "function", function := { name := "beta_tool", arguments := "" } }

theorem c7_witness :
    (∀ c ∈ [callAlpha, callBeta], (twoToolEnv.registry.execute c.function.name
        (decodeArgs twoToolEnv c.function.arguments)).isOk = true)
      ∧ ∃ msgs, execute_tool_calls twoToolEnv [callAlpha, callBeta] = Except.ok msgs
          ∧ msgs.map (fun m => m.tool_call_id) = [callAlpha, callBeta].map (fun c => some c.id)
          ∧ msgs.map (fun m => m.name)
              = [callAlpha, callBeta].map (fun c => some c.function.name) :=
  ⟨by decide,
    c7_batch_order_and_sequential_dispatch.2 Unit Unit twoToolEnv [callAlpha, callBeta]
      (by decide)⟩

theorem getBuilder_append (st1 st2 : BuilderState) (k : String) :
    getBuilder (st1 ++ st2) k
      = match getBuilder st1 k with
        | some b => some b
        | none => getBuilder st2 k := by
  induction st1 with
  | nil => simp [getBuilder]
  | cons p ps ih => by_cases h : p.1 = k <;> simp [getBuilder, h, ih]

theorem getBuilder_eq_none_iff (st : BuilderState) (k : String) :
    getBuilder st k = none ↔ k ∉ st.map Prod.fst := by
  induction st with
  | nil => simp [getBuilder]
  | cons p ps ih =>
    rw [getBuilder]
    by_cases h : p.1 = k
    · rw [if_pos h]
      simp [h]
    · rw [if_neg h, ih]
      simp only [List.map_cons, List.mem_cons, not_or]
      exact ⟨fun hk => ⟨fun he => h he.symm, hk⟩, fun hk => hk.2⟩

theorem listUpdate_keys (st : BuilderState) (k : String) (f : ToolCallBuilder → ToolCallBuilder) :
    (listUpdate st k f).map Prod.fst = st.map Prod.fst := by
  induction st with
  | nil => rfl
  | cons p ps ih => by_cases h : p.1 = k <;> simp [listUpdate, h, ih]

theorem getBuilder_listUpdate (st : BuilderState) (k s : String)
    (f : ToolCallBuilder → ToolCallBuilder) :
    getBuilder (listUpdate st k f) s
      = if s = k then (getBuilder st k).map f else getBuilder st s := by
  induction st with
  | nil => simp [listUpdate, getBuilder]
  | cons p ps ih =>
    by_cases h1 : p.1 = k <;> by_cases h2 : s = k
    · subst h2
      simp [listUpdate, getBuilder, h1]
    · have hp1s : ¬p.1 = s := fun he => h2 (he.symm.trans h1)
      have hsp1 : ¬s = p.1 := fun he => hp1s he.symm
      have hks : ¬k = s := fun he => h2 he.symm
      simp [listUpdate, getBuilder, h1, h2, hp1s, hsp1, hks, ih]
    · subst h2
      rw [listUpdate, if_neg h1, getBuilder, if_neg h1, ih, if_pos rfl, if_pos rfl,
        getBuilder, if_neg h1]
    · by_cases h3 : p.1 = s
      · rw [listUpdate, if_neg h1, getBuilder, if_pos h3, if_neg h2, getBuilder, if_pos h3]
      · rw [listUpdate, if_neg h1, getBuilder, if_neg h3, ih, if_neg h2, if_neg h2,
          getBuilder, if_neg h3]

theorem listUpdate_WF {WF : String → ToolCallBuilder → Prop} (k : String)
    (f : ToolCallBuilder → ToolCallBuilder) (hf : ∀ b, WF k b → WF k (f b)) :
    ∀ (st : BuilderState), (∀ p ∈ st, WF p.1 p.2) → ∀ p ∈ listUpdate st k f, WF p.1 p.2 := by
  intro st
  induction st with
  | nil => intro _ p hp; simp [listUpdate] at hp
  | cons q qs ih =>
    intro hst p hp
    rw [listUpdate] at hp
    rcases List.mem_cons.mp hp with hp1 | hp2
    · by_cases h : q.1 = k
      · rw [if_pos h] at hp1
        subst hp1
        exact h ▸ hf q.2 (h ▸ hst q (List.mem_cons_self q qs))
      · rw [if_neg h] at hp1
        subst hp1
        exact hst p (List.mem_cons_self p qs)
    · exact ih (fun x hx => hst x (List.mem_cons_of_mem q hx)) p hp2

/-- Well-formedness of the accumulator table under a per-entry invariant:
keys are distinct (it models a dict) and every entry satisfies `WF`. -/
def StWF (WF : String → ToolCallBuilder → Prop) (st : BuilderState) : Prop :=
  (st.map Prod.fst).Nodup ∧ ∀ p ∈ st, WF p.1 p.2

theorem processCall_spec (keyFn : ToolCallDelta → String) (Good : ToolCallDelta → Prop)
    (WF : String → ToolCallBuilder → Prop)
    (h1 : ∀ (st : BuilderState) (c : ToolCallDelta) (idx : Nat),
        StWF WF st → Good c → resolveKeyCode st c.id c.index idx = keyFn c)
    (h2 : ∀ c, Good c → WF (keyFn c) (newBuilder c (keyFn c)))
    (h3 : ∀ c k b, Good c → WF k b → WF k (b.update c))
    (st : BuilderState) (idx : Nat) (c : ToolCallDelta)
    (hg : Good c) (hwf : StWF WF st) :
    StWF WF (processCall st idx c)
      ∧ ∀ s, getBuilder (processCall st idx c) s
          = if s = keyFn c
            then some (((getBuilder st (keyFn c)).getD (newBuilder c (keyFn c))).update c)
            else getBuilder st s := by
  have hkey : resolveKeyCode st c.id c.index idx = keyFn c := h1 st c idx hwf hg
  unfold processCall
  rw [hkey]
  dsimp only
  by_cases hb : getBuilder st (keyFn c) = none
  · rw [if_pos hb]
    constructor
    · constructor
      · rw [listUpdate_keys, List.map_append]
        simp only [List.map_cons, List.map_nil]
        rw [List.nodup_append]
        refine ⟨hwf.1, List.nodup_singleton _, ?_⟩
        intro a ha hmem
        rw [List.mem_singleton] at hmem
        subst hmem
        exact (getBuilder_eq_none_iff st (keyFn c)).mp hb ha
      · refine listUpdate_WF (keyFn c) _ (fun b hbwf => h3 c (keyFn c) b hg hbwf) _ ?_
        intro p hp
        rcases List.mem_append.mp hp with hp1 | hp2
        · exact hwf.2 p hp1
        · rw [List.mem_singleton] at hp2
          subst hp2
          exact h2 c hg
    · intro s
      rw [getBuilder_listUpdate]
      by_cases hs : s = keyFn c
      · rw [if_pos hs, if_pos hs, getBuilder_append, hb]
        simp [getBuilder]
      · have hks : ¬keyFn c = s := fun h => hs h.symm
        rw [if_neg hs, if_neg hs, getBuilder_append]
        cases hgs : getBuilder st s <;> simp [getBuilder, hgs, hks]
  · rw [if_neg hb]
    obtain ⟨b0, hb0⟩ := Option.ne_none_iff_exists'.mp hb
    constructor
    · constructor
      · rw [listUpdate_keys]
        exact hwf.1
      · exact listUpdate_WF (keyFn c) _ (fun b hbwf => h3 c (keyFn c) b hg hbwf) st hwf.2
    · intro s
      rw [getBuilder_listUpdate]
      by_cases hs : s = keyFn c
      · rw [if_pos hs, if_pos hs, hb0]
        rfl
      · rw [if_neg hs, if_neg hs]

/-- The concatenated argument fragments contributed under one correlation key
by a sequence of tool-call deltas, in arrival order. -/
def argsForKey (keyFn : ToolCallDelta → String) (calls : List ToolCallDelta)
    (s : String) : List String :=
  ((calls.filter (fun c => keyFn c = s)).map callArgs).flatten

theorem argsForKey_cons (keyFn : ToolCallDelta → String) (c : ToolCallDelta)
    (rest : List ToolCallDelta) (s : String) :
    argsForKey keyFn (c :: rest) s
      = (if keyFn c = s then callArgs c else []) ++ argsForKey keyFn rest s := by
  rw [argsForKey, List.filter_cons]
  by_cases h : keyFn c = s <;> simp [h, argsForKey]

theorem argsForKey_append (keyFn : ToolCallDelta → String) (l1 l2 : List ToolCallDelta)
    (s : String) :
    argsForKey keyFn (l1 ++ l2) s = argsForKey keyFn l1 s ++ argsForKey keyFn l2 s := by
  simp [argsForKey, List.filter_append]

theorem processList_spec (keyFn : ToolCallDelta → String) (Good : ToolCallDelta → Prop)
    (WF : String → ToolCallBuilder → Prop)
    (h1 : ∀ (st : BuilderState) (c : ToolCallDelta) (idx : Nat),
        StWF WF st → Good c → resolveKeyCode st c.id c.index idx = keyFn c)
    (h2 : ∀ c, Good c → WF (keyFn c) (newBuilder c (keyFn c)))
    (h3 : ∀ c k b, Good c → WF k b → WF k (b.update c)) :
    ∀ (l : List (Nat × ToolCallDelta)) (st : BuilderState),
      (∀ p ∈ l, Good p.2) → StWF WF st →
      StWF WF (processList st l)
        ∧ (∀ s, getBuilder (processList st l) s = none
              ↔ (getBuilder st s = none ∧ s ∉ l.map (fun p => keyFn p.2)))
        ∧ (∀ s b2, getBuilder (processList st l) s = some b2 →
            b2.arguments
              = (match getBuilder st s with
                 | some b => b.arguments
                 | none => []) ++ argsForKey keyFn (l.map Prod.snd) s) := by
  intro l
  induction l with
  | nil =>
    intro st hg hwf
    refine ⟨hwf, ?_, ?_⟩
    · intro s
      simp [processList]
    · intro s b2 hb2
      have hb2x : getBuilder st s = some b2 := hb2
      rw [hb2x]
      simp [argsForKey]
  | cons p rest ih =>
    intro st hg hwf
    obtain ⟨idx, c⟩ := p
    have hgc : Good c := hg (idx, c) (List.mem_cons_self _ _)
    have hgr : ∀ q ∈ rest, Good q.2 := fun q hq => hg q (List.mem_cons_of_mem _ hq)
    obtain ⟨hwf1, hget1⟩ := processCall_spec keyFn Good WF h1 h2 h3 st idx c hgc hwf
    have hpl : processList st ((idx, c) :: rest) = processList (processCall st idx c) rest := rfl
    obtain ⟨hwf2, hnone2, hargs2⟩ := ih (processCall st idx c) hgr hwf1
    rw [hpl]
    refine ⟨hwf2, ?_, ?_⟩
    · intro s
      rw [hnone2 s, hget1 s, List.map_cons]
      by_cases hs : s = keyFn c
      · rw [if_pos hs]
        simp [hs]
      · rw [if_neg hs]
        simp [hs]
    · intro s b2 hb2
      have hthis := hargs2 s b2 hb2
      rw [hget1 s] at hthis
      rw [List.map_cons, argsForKey_cons]
      by_cases hs : s = keyFn c
      · rw [if_pos hs] at hthis
        dsimp only at hthis
        rw [update_arguments] at hthis
        rw [if_pos hs.symm, hthis, hs]
        cases hgs : getBuilder st (keyFn c) <;>
          simp [hgs, newBuilder, List.append_assoc]
      · rw [if_neg hs] at hthis
        rw [if_neg (fun he => hs he.symm)]
        simpa using hthis

/-- The accumulator table after consuming a sequence of per-chunk tool-call
batches, starting from `st`. -/
def collectBatches (st : BuilderState) (batches : List (List ToolCallDelta)) : BuilderState :=
  batches.foldl (fun st b => processList st b.enum) st

theorem argsForKey_of_not_mem (keyFn : ToolCallDelta → String) (calls : List ToolCallDelta)
    (s : String) (h : s ∉ calls.map keyFn) : argsForKey keyFn calls s = [] := by
  rw [argsForKey]
  have hf : calls.filter (fun c => keyFn c = s) = [] := by
    rw [List.filter_eq_nil_iff]
    intro c hc
    simp only [decide_eq_true_eq]
    intro he
    exact h (he ▸ List.mem_map_of_mem keyFn hc)
  rw [hf]
  rfl

theorem enum_map_keyFn (keyFn : ToolCallDelta → String) (b : List ToolCallDelta) :
    b.enum.map (fun p => keyFn p.2) = b.map keyFn := by
  rw [show (fun p : Nat × ToolCallDelta => keyFn p.2) = keyFn ∘ Prod.snd from rfl,
    ← List.map_map, List.enum_map_snd]

theorem collectBatches_spec (keyFn : ToolCallDelta → String) (Good : ToolCallDelta → Prop)
    (WF : String → ToolCallBuilder → Prop)
    (h1 : ∀ (st : BuilderState) (c : ToolCallDelta) (idx : Nat),
        StWF WF st → Good c → resolveKeyCode st c.id c.index idx = keyFn c)
    (h2 : ∀ c, Good c → WF (keyFn c) (newBuilder c (keyFn c)))
    (h3 : ∀ c k b, Good c → WF k b → WF k (b.update c)) :
    ∀ (batches : List (List ToolCallDelta)) (st : BuilderState),
      (∀ b ∈ batches, ∀ c ∈ b, Good c) → StWF WF st →
      StWF WF (collectBatches st batches)
        ∧ (∀ s, getBuilder (collectBatches st batches) s = none
              ↔ (getBuilder st s = none ∧ s ∉ batches.flatten.map keyFn))
        ∧ (∀ s b2, getBuilder (collectBatches st batches) s = some b2 →
            b2.arguments
              = (match getBuilder st s with | some b => b.arguments | none => [])
                ++ argsForKey keyFn batches.flatten s) := by
  intro batches
  induction batches with
  | nil =>
    intro st hg hwf
    refine ⟨hwf, ?_, ?_⟩
    · intro s
      simp [collectBatches]
    · intro s b2 hb2
      have hb2x : getBuilder st s = some b2 := hb2
      rw [hb2x]
      simp [argsForKey]
  | cons b rest ih =>
    intro st hg hwf
    have hgc : ∀ p ∈ b.enum, Good p.2 := by
      intro p hp
      refine hg b (List.mem_cons_self _ _) p.2 ?_
      have hm : p.2 ∈ b.enum.map Prod.snd := List.mem_map_of_mem Prod.snd hp
      rwa [List.enum_map_snd] at hm
    obtain ⟨hwf1, hnone1, hargs1⟩ :=
      processList_spec keyFn Good WF h1 h2 h3 b.enum st hgc hwf
    obtain ⟨hwf2, hnone2, hargs2⟩ :=
      ih (processList st b.enum) (fun x hx c hc => hg x (List.mem_cons_of_mem _ hx) c hc) hwf1
    have hcb : collectBatches st (b :: rest) = collectBatches (processList st b.enum) rest := rfl
    rw [hcb]
    refine ⟨hwf2, ?_, ?_⟩
    · intro s
      rw [hnone2 s, hnone1 s, enum_map_keyFn, List.flatten_cons, List.map_append]
      simp only [List.mem_append, not_or]
      tauto
    · intro s b2 hb2
      have h2x := hargs2 s b2 hb2
      rw [List.flatten_cons, argsForKey_append]
      cases hgs : getBuilder (processList st b.enum) s with
      | none =>
        rw [hgs] at h2x
        dsimp only at h2x
        obtain ⟨hst0, hnb⟩ := (hnone1 s).mp hgs
        rw [hst0, h2x]
        rw [enum_map_keyFn] at hnb
        rw [argsForKey_of_not_mem keyFn b s hnb]
        rfl
      | some bmid =>
        rw [hgs] at h2x
        dsimp only at h2x
        have hmid := hargs1 s bmid hgs
        rw [List.enum_map_snd] at hmid
        rw [h2x, hmid, List.append_assoc]

theorem runChunks_toolStream (batches : List (List ToolCallDelta)) :
    ∀ st, runChunks st (toolStream batches)
      = ([], emit_tool_calls (collectBatches st batches)
          ++ [Event.finish (some "tool_calls")]) := by
  induction batches with
  | nil =>
    intro st
    rw [show toolStream [] = [finishChunk "tool_calls"] from rfl, runChunks]
    rw [show handleChunk st (finishChunk "tool_calls")
        = ([], emit_tool_calls st ++ [Event.finish (some "tool_calls")]) from rfl]
    rw [runChunks]
    simp [collectBatches]
  | cons b rest ih =>
    intro st
    rw [show toolStream (b :: rest) = toolChunk b :: toolStream rest from rfl, runChunks]
    rw [show handleChunk st (toolChunk b) = (processList st b.enum, []) from rfl, ih]
    simp [collectBatches]

theorem handle_stream_toolStream (batches : List (List ToolCallDelta)) :
    handle_stream (toolStream batches)
      = emit_tool_calls (collectBatches [] batches) ++ [Event.finish (some "tool_calls")] := by
  rw [handle_stream, runChunks_toolStream]

theorem toolCallEvents_emit_finish (st : BuilderState) (r : Option String) :
    toolCallEvents (emit_tool_calls st ++ [Event.finish r])
      = st.map (fun p => p.2.to_dict) := by
  induction st with
  | nil => rfl
  | cons p ps ih =>
    show toolCallEvents (Event.tool_call p.2.to_dict :: (emit_tool_calls ps ++ [Event.finish r]))
      = p.2.to_dict :: ps.map (fun p => p.2.to_dict)
    rw [toolCallEvents, List.filterMap_cons]
    dsimp only
    rw [← toolCallEvents, ih]

theorem getBuilder_of_mem (st : BuilderState) (hn : (st.map Prod.fst).Nodup)
    (p : String × ToolCallBuilder) (hp : p ∈ st) : getBuilder st p.1 = some p.2 := by
  induction st with
  | nil => simp at hp
  | cons q qs ih =>
    rw [List.map_cons, List.nodup_cons] at hn
    rcases List.mem_cons.mp hp with h | h
    · subst h
      rw [getBuilder, if_pos rfl]
    · rw [getBuilder]
      have hq : ¬q.1 = p.1 := by
        intro he
        exact hn.1 (he ▸ List.mem_map_of_mem Prod.fst h)
      rw [if_neg hq]
      exact ih hn.2 h

theorem emitted_ids_eq_keys (st : BuilderState)
    (h : ∀ p ∈ st, p.2.id = p.1 ∧ p.1 ≠ "") :
    (st.map (fun p => p.2.to_dict)).map (fun d => d.id) = st.map Prod.fst := by
  induction st with
  | nil => rfl
  | cons p ps ih =>
    simp only [List.map_cons]
    rw [ih (fun x hx => h x (List.mem_cons_of_mem p hx))]
    obtain ⟨h1, h2⟩ := h p (List.mem_cons_self p ps)
    have : (p.2.to_dict).id = p.1 := by
      simp [ToolCallBuilder.to_dict, h1, h2]
    rw [this]

/-- The correlation key of a fragment that carries an identifier. -/
def idKey (c : ToolCallDelta) : String := c.id.getD ""

/-- The correlation key synthesized for a fragment that carries only an
index. -/
def idxKey (c : ToolCallDelta) : String := "idx_" ++ toString (c.index.getD 0)

/-- Table invariant for identifier-keyed accumulators. -/
def WFid (k : String) (b : ToolCallBuilder) : Prop := b.id = k ∧ k ≠ ""

/-- Table invariant for index-keyed accumulators. -/
def WFidx (k : String) (b : ToolCallBuilder) : Prop :=
  ∃ i, b.index = some i ∧ k = "idx_" ++ toString i ∧ b.id = k

theorem idx_key_ne_empty (i : Int) : "idx_" ++ toString i ≠ "" := by
  intro h
  have h2 := congrArg String.length h
  rw [String.length_append] at h2
  have h3 : "idx_".length = 4 := rfl
  have h4 : "".length = 0 := rfl
  rw [h3, h4] at h2
  omega

theorem resolveKey_idKey (st : BuilderState) (c : ToolCallDelta) (idx : Nat)
    (_hwf : StWF WFid st) (hg : strTruthy c.id = true) :
    resolveKeyCode st c.id c.index idx = idKey c := by
  cases hid : c.id with
  | none => rw [hid] at hg; simp [strTruthy] at hg
  | some s => cases c.index <;> simp [resolveKeyCode, idKey, hid]

theorem newBuilder_WFid (c : ToolCallDelta) (hg : strTruthy c.id = true) :
    WFid (idKey c) (newBuilder c (idKey c)) := by
  cases hid : c.id with
  | none => rw [hid] at hg; simp [strTruthy] at hg
  | some s =>
    have hs : s ≠ "" := by rw [hid] at hg; simpa [strTruthy] using hg
    exact ⟨by simp [newBuilder, pyOr, idKey, hid, hs], by simp [idKey, hid, hs]⟩

theorem update_WFid (c : ToolCallDelta) (k : String) (b : ToolCallBuilder)
    (h : WFid k b) : WFid k (b.update c) :=
  ⟨by rw [update_id_of_ne b c (fun he => h.2 (h.1.symm.trans he))]; exact h.1, h.2⟩

theorem resolveKey_idxKey (st : BuilderState) (c : ToolCallDelta) (idx : Nat)
    (hwf : StWF WFidx st) (hg : c.id = none ∧ c.index ≠ none) :
    resolveKeyCode st c.id c.index idx = idxKey c := by
  obtain ⟨hid, hidx⟩ := hg
  obtain ⟨i, hi⟩ := Option.ne_none_iff_exists'.mp hidx
  rw [hid, hi]
  unfold resolveKeyCode
  dsimp only
  cases hf : st.find? (fun p => p.2.index = some i) with
  | none => simp [hf, idxKey, hi]
  | some p =>
    have hp := List.find?_some hf
    have hpm := List.mem_of_find?_eq_some hf
    obtain ⟨j, hj1, hj2, hj3⟩ := hwf.2 p hpm
    have hpi : p.2.index = some i := by simpa using hp
    rw [hpi] at hj1
    have hij : i = j := by injection hj1
    simp [hf, idxKey, hi, hj2, hij]

theorem newBuilder_WFidx (c : ToolCallDelta) (hg : c.id = none ∧ c.index ≠ none) :
    WFidx (idxKey c) (newBuilder c (idxKey c)) := by
  obtain ⟨hid, hidx⟩ := hg
  obtain ⟨i, hi⟩ := Option.ne_none_iff_exists'.mp hidx
  refine ⟨i, ?_, ?_, ?_⟩
  · simp [newBuilder, hi]
  · simp [idxKey, hi]
  · simp [newBuilder, pyOr, hid]

theorem update_WFidx (c : ToolCallDelta) (k : String) (b : ToolCallBuilder)
    (h : WFidx k b) : WFidx k (b.update c) := by
  obtain ⟨i, hi1, hi2, hi3⟩ := h
  refine ⟨i, update_index_of_some b c i hi1, hi2, ?_⟩
  rw [update_id_of_ne b c (fun he => idx_key_ne_empty i (hi2 ▸ (hi3.symm.trans he)))]
  exact hi3

theorem aggregate_spec (keyFn : ToolCallDelta → String) (Good : ToolCallDelta → Prop)
    (WF : String → ToolCallBuilder → Prop)
    (h1 : ∀ (st : BuilderState) (c : ToolCallDelta) (idx : Nat),
        StWF WF st → Good c → resolveKeyCode st c.id c.index idx = keyFn c)
    (h2 : ∀ c, Good c → WF (keyFn c) (newBuilder c (keyFn c)))
    (h3 : ∀ c k b, Good c → WF k b → WF k (b.update c))
    (hWFid : ∀ k b, WF k b → b.id = k ∧ k ≠ "")
    (batches : List (List ToolCallDelta))
    (hg : ∀ b ∈ batches, ∀ c ∈ b, Good c) :
    ((toolCallEvents (handle_stream (toolStream batches))).map (fun d => d.id)).Nodup
      ∧ (∀ s, s ∈ (toolCallEvents (handle_stream (toolStream batches))).map (fun d => d.id)
          ↔ s ∈ batches.flatten.map keyFn)
      ∧ (∀ d ∈ toolCallEvents (handle_stream (toolStream batches)),
          d.function.arguments = String.join (argsForKey keyFn batches.flatten d.id)) := by
  have hSW : StWF WF [] := ⟨List.nodup_nil, by intro p hp; simp at hp⟩
  obtain ⟨hwf, hnone, hargs⟩ := collectBatches_spec keyFn Good WF h1 h2 h3 batches [] hg hSW
  have hids : ∀ p ∈ collectBatches [] batches, p.2.id = p.1 ∧ p.1 ≠ "" :=
    fun p hp => hWFid p.1 p.2 (hwf.2 p hp)
  rw [handle_stream_toolStream, toolCallEvents_emit_finish]
  refine ⟨?_, ?_, ?_⟩
  · rw [emitted_ids_eq_keys _ hids]
    exact hwf.1
  · intro s
    rw [emitted_ids_eq_keys _ hids]
    constructor
    · intro hmem
      by_contra hns
      have hnone2 : getBuilder (collectBatches [] batches) s = none :=
        (hnone s).mpr ⟨rfl, hns⟩
      exact (getBuilder_eq_none_iff _ s).mp hnone2 hmem
    · intro hmem
      by_contra hks
      have hnone2 := (getBuilder_eq_none_iff _ s).mpr hks
      exact ((hnone s).mp hnone2).2 hmem
  · intro d hd
    obtain ⟨p, hp, hdp⟩ := List.mem_map.mp hd
    have hgb : getBuilder (collectBatches [] batches) p.1 = some p.2 :=
      getBuilder_of_mem _ hwf.1 p hp
    have hargp := hargs p.1 p.2 hgb
    obtain ⟨hid, hne⟩ := hids p hp
    have hdid : (p.2.to_dict).id = p.1 := by
      simp [ToolCallBuilder.to_dict, hid, hne]
    subst hdp
    rw [hdid]
    show String.join p.2.arguments = _
    rw [hargp]
    rfl

/-- C3: for every fragment sequence whose tool-call fragments all carry an
identifier, the Aggregator produces exactly one Tool-Call Request per
identifier — the finalized request ids are pairwise distinct and are exactly
the identifiers carried by the fragments — and the arguments string of each
request equals the concatenation, in arrival order, of the argument strings
of the fragments of its key; the same guarantee holds for the
index-synthesized keys when no fragment carries an identifier and every
fragment carries an index. -/
theorem c3_one_request_per_identifier_or_index :
    (∀ batches : List (List ToolCallDelta),
      (∀ b ∈ batches, ∀ c ∈ b, strTruthy c.id = true) →
      ((toolCallEvents (handle_stream (toolStream batches))).map (fun d => d.id)).Nodup
        ∧ (∀ s, s ∈ (toolCallEvents (handle_stream (toolStream batches))).map (fun d => d.id)
            ↔ s ∈ batches.flatten.map idKey)
        ∧ (∀ d ∈ toolCallEvents (handle_stream (toolStream batches)),
            d.function.arguments = String.join (argsForKey idKey batches.flatten d.id)))
    ∧ (∀ batches : List (List ToolCallDelta),
      (∀ b ∈ batches, ∀ c ∈ b, c.id = none ∧ c.index ≠ none) →
      ((toolCallEvents (handle_stream (toolStream batches))).map (fun d => d.id)).Nodup
        ∧ (∀ s, s ∈ (toolCallEvents (handle_stream (toolStream batches))).map (fun d => d.id)
            ↔ s ∈ batches.flatten.map idxKey)
        ∧ (∀ d ∈ toolCallEvents (handle_stream (toolStream batches)),
            d.function.arguments = String.join (argsForKey idxKey batches.flatten d.id))) := by
  constructor
  · intro batches hg
    exact aggregate_spec idKey (fun c => strTruthy c.id = true) WFid
      resolveKey_idKey newBuilder_WFid (fun c k b _hgc hw => update_WFid c k b hw)
      (fun k b hw => hw) batches hg
  · intro batches hg
    refine aggregate_spec idxKey (fun c => c.id = none ∧ c.index ≠ none) WFidx
      resolveKey_idxKey newBuilder_WFidx (fun c k b _hgc hw => update_WFidx c k b hw)
      (fun k b hw => ?_) batches hg
    obtain ⟨i, _hi1, hi2, hi3⟩ := hw
    exact ⟨hi3, fun he => idx_key_ne_empty i (hi2.symm.trans he)⟩

/-- Identifier-correlated fragments split over two chunks. -/
def c3BatchesA : List (List ToolCallDelta) :=
  [[{ id := some "1", function := some { name := some "f", arguments := some "x" } }],
   [{ id := some "1", function := some { arguments := some "y" } }]]

/-- Index-correlated fragments (no identifiers) split over two chunks. -/
def c3BatchesB : List (List ToolCallDelta) :=
  [[{ index := some 0, function := some { name := some "g", arguments := some "u" } }],
   [{ index := some 0, function := some { arguments := some "v" } }]]

theorem c3_witness :
    ((∀ b ∈ c3BatchesA, ∀ c ∈ b, strTruthy c.id = true)
      ∧ ((toolCallEvents (handle_stream (toolStream c3BatchesA))).map (fun d => d.id)).Nodup
      ∧ (∀ s, s ∈ (toolCallEvents (handle_stream (toolStream c3BatchesA))).map (fun d => d.id)
          ↔ s ∈ c3BatchesA.flatten.map idKey)
      ∧ (∀ d ∈ toolCallEvents (handle_stream (toolStream c3BatchesA)),
          d.function.arguments = String.join (argsForKey idKey c3BatchesA.flatten d.id)))
    ∧ ((∀ b ∈ c3BatchesB, ∀ c ∈ b, c.id = none ∧ c.index ≠ none)
      ∧ ((toolCallEvents (handle_stream (toolStream c3BatchesB))).map (fun d => d.id)).Nodup
      ∧ (∀ s, s ∈ (toolCallEvents (handle_stream (toolStream c3BatchesB))).map (fun d => d.id)
          ↔ s ∈ c3BatchesB.flatten.map idxKey)
      ∧ (∀ d ∈ toolCallEvents (handle_stream (toolStream c3BatchesB)),
          d.function.arguments = String.join (argsForKey idxKey c3BatchesB.flatten d.id))) := by
  have hA := c3_one_request_per_identifier_or_index.1 c3BatchesA (by decide)
  have hB := c3_one_request_per_identifier_or_index.2 c3BatchesB (by decide)
  exact ⟨⟨by decide, hA.1, hA.2.1, hA.2.2⟩, ⟨by decide, hB.1, hB.2.1, hB.2.2⟩⟩

/-- A fragment for one logical call carrying only a positional index. -/
def c6FragIdx : ToolCallDelta :=
  { index := some 0, function := some { name := some "get", arguments := some "a" } }

/-- A later fragment of the same logical call, now carrying the identifier. -/
def c6FragId : ToolCallDelta :=
  { id := some "1", index := some 0, function := some { arguments := some "b" } }

/-- C6 is false on the code: key resolution tries the identifier first
(stream_handler.py line 212), so a fragment whose identifier arrives late is
NOT merged into the index-keyed accumulator — it opens a second accumulator
under the identifier, and the round finalizes two Tool-Call Requests instead
of one. -/
theorem c6_counterexample :
    toolCallEvents (handle_stream (toolStream [[c6FragIdx], [c6FragId]]))
        = [{ id := "idx_0", type := "function", function := { name := "get", arguments := "a" } },
           { id := "1", type := "function",
             function := { name := "unknown_function", arguments := "b" } }]
      ∧ (toolCallEvents (handle_stream (toolStream [[c6FragIdx], [c6FragId]]))).length ≠ 1 := by
  constructor <;> decide

/-- C6 amended: when the fragments of one logical call first carry only a
positional index and the correlation identifier arrives only in a later
fragment, the index-only fragments are correlated into one accumulator under
the synthesized index key, but the identifier-carrying fragment is keyed by
the identifier (resolution rule 1) and opens a separate accumulator: the
Aggregator yields two Tool-Call Requests, not one. -/
theorem c6_amended_late_identifier_not_merged (i : Int) (s n a b : String)
    (hs : s ≠ "") (hsk : s ≠ "idx_" ++ toString i) (hn : n ≠ "") (ha : a ≠ "") (hb : b ≠ "") :
    toolCallEvents (handle_stream (toolStream
        [[{ index := some i, function := some { name := some n, arguments := some a } }],
         [{ id := some s, index := some i,
            function := some { arguments := some b } }]]))
      = [{ id := "idx_" ++ toString i, type := "function",
           function := { name := n, arguments := a } },
         { id := s, type := "function",
           function := { name := "unknown_function", arguments := b } }] := by
  have hks : ¬("idx_" ++ toString i) = s := fun he => hsk he.symm
  rw [handle_stream_toolStream, toolCallEvents_emit_finish]
  simp [collectBatches, processList, processCall, resolveKeyCode, getBuilder, listUpdate,
    newBuilder, pyOr, ToolCallBuilder.update, ToolCallBuilder.to_dict, strTruthy,
    List.enum, List.enumFrom, hs, hn, ha, hb, hsk, hks, idx_key_ne_empty i, String.join]

theorem c6_amended_witness :
    (("1" : String) ≠ "" ∧ ("1" : String) ≠ "idx_" ++ toString (0 : Int)
        ∧ ("get" : String) ≠ "" ∧ ("a" : String) ≠ "" ∧ ("b" : String) ≠ "")
      ∧ toolCallEvents (handle_stream (toolStream
          [[{ index := some 0, function := some { name := some "get", arguments := some "a" } }],
           [{ id := some "1", index := some 0, function := some { arguments := some "b" } }]]))
        = [{ id := "idx_" ++ toString (0 : Int), type := "function",
             function := { name := "get", arguments := "a" } },
           { id := "1", type := "function",
             function := { name := "unknown_function", arguments := "b" } }] :=
  ⟨by decide,
    c6_amended_late_identifier_not_merged 0 "1" "get" "a" "b"
      (by decide) (by decide) (by decide) (by decide) (by decide)⟩
